import Mathlib

/-!
Shallow embedding of the vscode-bisect core (src/constants.ts, src/builds.ts,
src/bisect.ts, src/files.ts) and proofs about its specification.

Conventions of the embedding:
* TypeScript enums become Lean inductive types with the same constructor names.
* The global `platform` / `arch` values become explicit parameters.
* Network I/O (catalog metadata fetches, artifact downloads, commit-list
  fetches) is modelled by an explicit trace of `NetOp` values; the remote
  service's answers are part of an explicit world/environment record.
* The filesystem is modelled as the list of paths that exist.
* `throw new Error(...)` becomes `Except.error`.
* JavaScript `Math.round (x / 2)` for a natural `x` is `(x + 1) / 2` in `Nat`
  (`x / 2` is exactly representable and ties round up).
-/

namespace VSCodeBisect

/-- Enum `Arch` from constants.ts. -/
inductive Arch where
  | X64
  | Arm64
deriving DecidableEq, Repr

/-- String value of an `Arch`, as in `Arch.X64 = 'x64'`, `Arch.Arm64 = 'arm64'`. -/
def Arch.str : Arch → String
  | .X64 => "x64"
  | .Arm64 => "arm64"

/-- Enum `Platform` from constants.ts. -/
inductive Platform where
  | MacOSX64
  | MacOSArm
  | LinuxX64
  | LinuxArm
  | WindowsX64
  | WindowsArm
deriving DecidableEq, Repr

/-- The `platform === Platform.WindowsX64 || platform === Platform.WindowsArm` test. -/
def Platform.isWindows : Platform → Bool
  | .WindowsX64 | .WindowsArm => true
  | _ => false

/-- Enum `Runtime` from constants.ts. -/
inductive Runtime where
  | WebLocal
  | WebRemote
  | DesktopLocal
deriving DecidableEq, Repr

/-- Enum `Quality` from constants.ts. -/
inductive Quality where
  | Insider
  | Stable
  | Exploration
deriving DecidableEq, Repr

/-- Enum `Flavor` from constants.ts. -/
inductive Flavor where
  | Default
  | DarwinUniversal
  | WindowsUserInstaller
  | WindowsSystemInstaller
  | LinuxDeb
  | LinuxRPM
  | LinuxSnap
  | Cli
  | CliLinuxAmd64
  | CliLinuxArm64
  | CliLinuxArmv7
  | CliAlpineAmd64
  | CliAlpineArm64
deriving DecidableEq, Repr

/-- String value of a `Flavor` (the TypeScript enum member values). -/
def Flavor.str : Flavor → String
  | .Default => "default"
  | .DarwinUniversal => "universal"
  | .WindowsUserInstaller => "win32-user"
  | .WindowsSystemInstaller => "win32-system"
  | .LinuxDeb => "linux-deb"
  | .LinuxRPM => "linux-rpm"
  | .LinuxSnap => "linux-snap"
  | .Cli => "cli"
  | .CliLinuxAmd64 => "cli-linux-amd64"
  | .CliLinuxArm64 => "cli-linux-arm64"
  | .CliLinuxArmv7 => "cli-linux-armv7"
  | .CliAlpineAmd64 => "cli-alpine-amd64"
  | .CliAlpineArm64 => "cli-alpine-arm64"

/-- `isDockerCliFlavor` from constants.ts. -/
def isDockerCliFlavor : Flavor → Bool
  | .CliLinuxAmd64 | .CliLinuxArm64 | .CliLinuxArmv7 | .CliAlpineAmd64 | .CliAlpineArm64 => true
  | _ => false

/-- `IBuildKind` from builds.ts. -/
structure IBuildKind where
  runtime : Runtime
  quality : Quality
  flavor : Flavor
deriving DecidableEq, Repr

/-- `IBuild` from builds.ts: a build kind plus a commit. -/
structure IBuild extends IBuildKind where
  commit : String
deriving DecidableEq, Repr

/-- `BUILD_FOLDER` from constants.ts (`join(tmpdir(), 'vscode-bisect', '.builds')`),
with the POSIX temporary directory as the concrete root. -/
def BUILD_FOLDER : String := "/tmp/vscode-bisect/.builds"

/-- `s.substring(0, n)`: the first `n` characters of `s` (all of `s` when it is
shorter). -/
def substringTo (s : String) (n : Nat) : String :=
  String.mk (s.data.take n)

/-- `getBuildPath` from files.ts: the cache folder for `(commit, quality, flavor)`.
On Windows the commit is shortened to its first 6 characters; non-default quality
and flavor are joined with `-` and prepended to the folder name. -/
def getBuildPath (platform : Platform) (commit : String) (quality : Quality) (flavor : Flavor) : String :=
  let uniqueFolderName :=
    if platform = Platform.WindowsX64 ∨ platform = Platform.WindowsArm then
      substringTo commit 6
    else
      commit
  let prefixes : List String :=
    (if quality = Quality.Stable then ["stable"]
     else if quality = Quality.Exploration then ["exploration"]
     else []) ++
    (if flavor ≠ Flavor.Default then [flavor.str] else [])
  let uniqueFolderName :=
    if prefixes.length > 0 then
      String.intercalate "-" prefixes ++ "-" ++ uniqueFolderName
    else
      uniqueFolderName
  BUILD_FOLDER ++ "/" ++ uniqueFolderName

/-! ## Bisection engine (src/bisect.ts) -/

/-- Enum `BisectResponse` from bisect.ts. -/
inductive BisectResponse where
  | Good
  | Bad
  | Quit
deriving DecidableEq, Repr

/-- `IBisectState` from bisect.ts. `currentIndex` is an `Int` because the
JavaScript subtraction `currentIndex -= currentChunk` can go below zero. -/
structure IBisectState where
  currentChunk : Nat
  currentIndex : Int
deriving DecidableEq, Repr

/-- `Math.round (c / 2)` for a natural `c`: `c / 2` is exact to one binary digit
and `.5` ties round up, so this is `(c + 1) / 2`. -/
def roundHalf (c : Nat) : Nat := (c + 1) / 2

/-- `Bisecter.nextState` from bisect.ts: returns the updated state together with
the `finished` flag. When `currentChunk === 1` the state is unchanged and the
search is finished; otherwise the chunk is halved (rounding to nearest) and the
index moves toward newer builds on `Good` and older builds on `Bad`. -/
def nextState (state : IBisectState) (response : BisectResponse) : IBisectState × Bool :=
  if state.currentChunk = 1 then
    (state, true)
  else
    let c := roundHalf state.currentChunk
    let i : Int :=
      if response = BisectResponse.Good then state.currentIndex - c
      else state.currentIndex + c
    ({ currentChunk := c, currentIndex := i }, false)

/-- JavaScript array indexing `range[i]` for a possibly negative index:
`undefined` (here `none`) outside `[0, range.length)`. -/
def jsGet (range : List IBuild) (i : Int) : Option IBuild :=
  if h : 0 ≤ i ∧ i.toNat < range.length then some (range.get ⟨i.toNat, h.2⟩) else none

/-- The observable outcome of the bisect loop in `Bisecter.start`: the builds
probed (launch targets, in order), the state at each probe, the recorded
tightest good/bad builds, whether the user quit, and the final state. -/
structure LoopResult where
  probes : List IBuild
  trace : List IBisectState
  good : Option IBuild
  bad : Option IBuild
  quit : Bool
  final : IBisectState
deriving DecidableEq, Repr

/-- The `while (build = buildsRange[state.currentIndex])` loop of
`Bisecter.start`, with the human verdicts supplied by `oracle` (the verdict for
the k-th probe). `fuel` bounds the recursion; `none` means fuel ran out, and
`runLoop_isSome` below shows `fuel ≥ currentChunk ≥ 1` always suffices. -/
def runLoop (range : List IBuild) (oracle : Nat → BisectResponse) :
    Nat → Nat → IBisectState → Option IBuild → Option IBuild → Option LoopResult
  | 0, _, _, _, _ => none
  | fuel + 1, k, state, good, bad =>
    match jsGet range state.currentIndex with
    | none => some ⟨[], [], good, bad, false, state⟩
    | some build =>
      let response := oracle k
      if response = BisectResponse.Quit then
        some ⟨[build], [state], good, bad, true, state⟩
      else
        let good1 := if response = BisectResponse.Good then some build else good
        let bad1 := if response = BisectResponse.Bad then some build else bad
        let next := nextState state response
        if next.2 then
          some ⟨[build], [state], good1, bad1, false, next.1⟩
        else
          match runLoop range oracle fuel (k + 1) next.1 good1 bad1 with
          | none => none
          | some res => some ⟨build :: res.probes, state :: res.trace, res.good, res.bad, res.quit, res.final⟩

/-- The initial state of `Bisecter.start`: `currentChunk = range.length`,
`currentIndex = 0`. -/
def initState (n : Nat) : IBisectState := ⟨n, 0⟩

/-- The state after the seeding step of `Bisecter.start`
(`this.nextState(state, BisectResponse.Bad)`). -/
def seedState (n : Nat) : IBisectState := (nextState (initState n) BisectResponse.Bad).1

/-- `Bisecter.start` from the point where the builds range is known: fewer than
2 builds means no bisection; otherwise seed the state and run the loop. The
fuel `range.length` is sufficient (see `startBisect_isSome`). -/
def startBisect (range : List IBuild) (oracle : Nat → BisectResponse) : Option LoopResult :=
  if range.length < 2 then
    some ⟨[], [], none, none, false, initState range.length⟩
  else
    runLoop range oracle range.length 0 (seedState range.length) none none

/-! ## Build catalog and range construction (src/builds.ts, `fetchBuilds`) -/

/-- Network operations observable in the embedding: a commit-list fetch
(`fetchAllBuilds`), a per-commit metadata fetch (`fetchBuildMeta`), an artifact
download (`fileGet`), and a version lookup (`fetchBuildByVersion`). -/
inductive NetOp where
  | listCommits (releasedOnly : Bool)
  | meta (commit : String)
  | download (url : String)
  | versionLookup (version : String)
deriving DecidableEq, Repr

/-- Errors thrown by `fetchBuilds`. -/
inductive FetchError where
  | commitNotFound (commit : String)
  | invalidRange
deriving DecidableEq, Repr

/-- `commits.map(commit => ({ commit, runtime, quality, flavor }))` from
`fetchAllBuilds`. -/
def mkBuilds (kind : IBuildKind) (commits : List String) : List IBuild :=
  commits.map (fun c => ⟨kind, c⟩)

/-- `Builds.indexOf` from builds.ts: index of the first build with the given
commit, `undefined` (`none`) when absent. -/
def indexOfCommit (commit : String) (builds : List IBuild) : Option Nat :=
  builds.findIdx? (fun b => b.commit = commit)

/-- The shared tail of `fetchBuilds` once both boundary indices are known:
reject a bad boundary that is not strictly newer (lower index) than the good
boundary, slice the inclusive range, and drop excluded commits. -/
def rangeOf (allBuilds : List IBuild) (goodCommitIndex badCommitIndex : Int)
    (excludeCommits : List String) : Except FetchError (List IBuild) :=
  if badCommitIndex ≥ goodCommitIndex then
    .error .invalidRange
  else
    let buildsInRange := (allBuilds.drop badCommitIndex.toNat).take
      ((goodCommitIndex + 1 - badCommitIndex).toNat)
    let buildsInRange :=
      if excludeCommits.length > 0 then
        buildsInRange.filter (fun b => !(excludeCommits.contains b.commit))
      else
        buildsInRange
    .ok buildsInRange

/-- Boundary resolution for one of the `goodCommit` / `badCommit` inputs:
`none` input resolves to the default index, a given commit resolves through
`indexOf` and yields no index when the commit is not in the list. -/
def boundaryIdx (commit : Option String) (allBuilds : List IBuild) (dflt : Int) : Option Int :=
  match commit with
  | none => some dflt
  | some c => (indexOfCommit c allBuilds).map (fun i => (i : Int))

/-- The `releasedOnly = true` pass of `fetchBuilds`: a boundary commit that is
not in the (released-only) list is a fatal commit-not-found error; otherwise
the range is built. The good boundary defaults to the last (oldest) build and
the bad boundary to index 0 (the newest). -/
def fetchBuildsFinal (kind : IBuildKind) (releasedCommits : List String)
    (goodCommit badCommit : Option String) (excludeCommits : List String) :
    Except FetchError (List IBuild) :=
  let allBuilds := mkBuilds kind releasedCommits
  match boundaryIdx goodCommit allBuilds ((allBuilds.length : Int) - 1) with
  | none => .error (.commitNotFound (goodCommit.getD ""))
  | some goodCommitIndex =>
    match boundaryIdx badCommit allBuilds 0 with
    | none => .error (.commitNotFound (badCommit.getD ""))
    | some badCommitIndex => rangeOf allBuilds goodCommitIndex badCommitIndex excludeCommits

/-- `Builds.fetchBuilds` from builds.ts. `commitsFn releasedOnly` is the commit
list the update server returns for the given `released` filter. With
`releasedOnly = false`, a boundary commit missing from the unreleased list
causes one retry of the whole resolution against the released-only list
(`fetchBuildsFinal`, which cannot retry again). The returned trace records the
commit-list fetches performed. -/
def fetchBuilds (kind : IBuildKind) (commitsFn : Bool → List String)
    (goodCommit badCommit : Option String) (releasedOnly : Bool)
    (excludeCommits : List String) : Except FetchError (List IBuild) × List NetOp :=
  if releasedOnly then
    (fetchBuildsFinal kind (commitsFn true) goodCommit badCommit excludeCommits,
      [.listCommits true])
  else
    let allBuilds := mkBuilds kind (commitsFn false)
    match boundaryIdx goodCommit allBuilds ((allBuilds.length : Int) - 1) with
    | none =>
      (fetchBuildsFinal kind (commitsFn true) goodCommit badCommit excludeCommits,
        [.listCommits false, .listCommits true])
    | some goodCommitIndex =>
      match boundaryIdx badCommit allBuilds 0 with
      | none =>
        (fetchBuildsFinal kind (commitsFn true) goodCommit badCommit excludeCommits,
          [.listCommits false, .listCommits true])
      | some badCommitIndex =>
        (rangeOf allBuilds goodCommitIndex badCommitIndex excludeCommits,
          [.listCommits false])

/-- A bisection session from resolved boundary commits: compute the range via
`fetchBuilds`, then run the bisect loop. An error from `fetchBuilds`
propagates before any build is launched. -/
def bisectSession (kind : IBuildKind) (commitsFn : Bool → List String)
    (goodCommit badCommit : Option String) (releasedOnly : Bool)
    (excludeCommits : List String) (oracle : Nat → BisectResponse) :
    Except FetchError (Option LoopResult) :=
  match (fetchBuilds kind commitsFn goodCommit badCommit releasedOnly excludeCommits).1 with
  | .error e => .error e
  | .ok range => .ok (startBisect range oracle)

/-- The builds launched during a session: none when range construction failed. -/
def launchesOf (session : Except FetchError (Option LoopResult)) : List IBuild :=
  match session with
  | .error _ => []
  | .ok none => []
  | .ok (some res) => res.probes

/-! ## Cache and integrity manager (src/builds.ts, `downloadAndExtractBuild`) -/

/-- `IBuildMetadata` from builds.ts, restricted to the fields
`downloadAndExtractBuild` reads. -/
structure IBuildMetadata where
  url : String
  productVersion : String
  sha256hash : String
deriving DecidableEq, Repr

/-- The environment of one `downloadAndExtractBuild` call: the paths that
currently exist on disk, the metadata the update service returns for the build,
and the SHA256 that `computeSHA256` yields on the bytes `fileGet` delivers. -/
structure DiskWorld where
  files : List String
  meta : IBuildMetadata
  downloadSha : String
deriving DecidableEq, Repr

/-- Split a character list at every `'/'` (the semantics of
`String.split('/')` in JavaScript); always returns a nonempty list. -/
def splitOnSlash : List Char → List (List Char)
  | [] => [[]]
  | c :: rest =>
    match splitOnSlash rest with
    | [] => [[]]
    | h :: t => if c = '/' then [] :: h :: t else (c :: h) :: t

/-- `url.split('/').pop()!`: the last `/`-separated segment of a URL. -/
def lastUrlSegment (url : String) : String :=
  String.mk (((splitOnSlash url.data).getLast?).getD [])

/-- Node's `dirname`: drop the last `/`-separated segment. -/
def jsDirname (path : String) : String :=
  String.intercalate "/" (((splitOnSlash path.data).dropLast).map String.mk)

/-- `Builds.getBuildDownloadName` from builds.ts, with the network operations it
performs (metadata fetches on Linux and Windows desktop paths). The TypeScript
switch falls through to the CLI section when no desktop case returns; on the
Windows desktop path the metadata fetch happens before the flavor switch, so a
fall-through still performed the fetch. -/
def getBuildDownloadName (platform : Platform) (arch : Arch) (b : IBuild)
    (meta : IBuildMetadata) : String × List NetOp :=
  -- Server
  if b.runtime = Runtime.WebLocal ∨ b.runtime = Runtime.WebRemote then
    match platform with
    | .MacOSX64 | .MacOSArm => ("vscode-server-darwin-" ++ arch.str ++ "-web.zip", [])
    | .LinuxX64 | .LinuxArm => ("vscode-server-linux-" ++ arch.str ++ "-web.tar.gz", [])
    | .WindowsX64 | .WindowsArm => ("vscode-server-win32-" ++ arch.str ++ "-web.zip", [])
  else
    -- Desktop
    let cliSection : List NetOp → String × List NetOp := fun ops =>
      match platform with
      | .MacOSX64 => ("vscode_cli_darwin_x64_cli.zip", ops)
      | .MacOSArm => ("vscode_cli_darwin_arm64_cli.zip", ops)
      | .LinuxX64 => ("vscode_cli_linux_x64_cli.tar.gz", ops)
      | .LinuxArm => ("vscode_cli_linux_arm64_cli.tar.gz", ops)
      | .WindowsX64 => ("vscode_cli_win32_x64_cli.zip", ops)
      | .WindowsArm => ("vscode_cli_win32_arm64_cli.zip", ops)
    if b.flavor ≠ Flavor.Cli then
      match platform with
      | .MacOSX64 =>
        (if b.flavor = Flavor.DarwinUniversal then "VSCode-darwin-universal.zip"
         else "VSCode-darwin.zip", [])
      | .MacOSArm =>
        (if b.flavor = Flavor.DarwinUniversal then "VSCode-darwin-universal.zip"
         else "VSCode-darwin-" ++ Arch.Arm64.str ++ ".zip", [])
      | .LinuxX64 | .LinuxArm => (lastUrlSegment meta.url, [.meta b.commit])
      | .WindowsX64 | .WindowsArm =>
        match b.flavor with
        | .Default =>
          ("VSCode-win32-" ++ arch.str ++ "-" ++ meta.productVersion ++ ".zip", [.meta b.commit])
        | .WindowsSystemInstaller =>
          ("VSCodeSetup-" ++ arch.str ++ "-" ++ meta.productVersion ++ ".exe", [.meta b.commit])
        | .WindowsUserInstaller =>
          ("VSCodeUserSetup-" ++ arch.str ++ "-" ++ meta.productVersion ++ ".exe", [.meta b.commit])
        | _ => cliSection [.meta b.commit]
    else
      cliSection []

/-- The full path of the downloaded artifact file inside the cache folder:
`join(getBuildPath(commit, quality, flavor), buildName)`. -/
def archivePath (platform : Platform) (arch : Arch) (b : IBuild) (meta : IBuildMetadata) : String :=
  getBuildPath platform b.commit b.quality b.flavor ++ "/" ++
    (getBuildDownloadName platform arch b meta).1

/-- `Builds.downloadAndExtractBuild` from builds.ts: returns the result
(`none` inside `ok` for docker CLI flavors, otherwise a local path), the world
after the call, and the network operations performed. A cached path with
`forceReDownload` unset is returned immediately; a forced call deletes the
cache folder first. After the download, a SHA256 mismatch against the metadata
checksum is a thrown error — the downloaded file stays on disk. On success,
archive flavors are extracted and the extraction destination is returned;
installer flavors return the downloaded file itself. -/
def downloadAndExtractBuild (platform : Platform) (arch : Arch) (b : IBuild)
    (forceReDownload : Bool) (w : DiskWorld) :
    Except String (Option String) × DiskWorld × List NetOp :=
  if isDockerCliFlavor b.flavor then
    (.ok none, w, [])
  else
    let nameOps := getBuildDownloadName platform arch b w.meta
    let buildName := nameOps.1
    let buildPath := getBuildPath platform b.commit b.quality b.flavor
    let path := buildPath ++ "/" ++ buildName
    let pathExists := w.files.contains path
    if pathExists ∧ ¬ forceReDownload then
      (.ok (some path), w, nameOps.2)
    else
      let w1 :=
        if pathExists ∧ forceReDownload then
          { w with files := w.files.filter (fun p => ¬ buildPath.isPrefixOf p) }
        else
          w
      -- fetch metadata, then stream-download to `path`
      let ops := nameOps.2 ++ [.meta b.commit, .download w.meta.url]
      let w2 := { w1 with files := path :: w1.files }
      if w.meta.sha256hash ≠ w.downloadSha then
        (.error "expected SHA256 checksum does not match with download", w2, ops)
      else if b.flavor = Flavor.Default ∨ b.flavor = Flavor.Cli ∨ b.flavor = Flavor.DarwinUniversal then
        let destination :=
          if (b.runtime = Runtime.DesktopLocal ∨ b.runtime = Runtime.WebLocal) ∧
              b.flavor = Flavor.Default ∧
              (platform = Platform.WindowsX64 ∨ platform = Platform.WindowsArm) then
            path.dropRight 4 -- path.substring(0, path.lastIndexOf('.zip'))
          else
            jsDirname path
        let w3 := { w2 with files := destination :: w2.files }
        (.ok (some destination), w3, ops)
      else
        (.ok (some path), w2, ops)

/-! ## Commit resolution (src/bisect.ts, `resolveCommit`) -/

/-- The test `/^\d+\.\d+$/.test(s)`: one or more digits, a dot, one or more
digits. The leading digit run is maximal, so `takeWhile` matches the greedy
regex exactly. -/
def isVersionFormat (s : String) : Bool :=
  let l := s.data
  let digits := l.takeWhile Char.isDigit
  let rest := l.drop digits.length
  decide (digits ≠ []) &&
    (match rest with
     | '.' :: tail => decide (tail ≠ []) && tail.all Char.isDigit
     | _ => false)

/-- The test `/^[0-9a-f]{40}$/i.test(s)`: exactly 40 case-insensitive
hexadecimal characters. -/
def isFullCommitFormat (s : String) : Bool :=
  s.length = 40 &&
    s.data.all (fun c => c.isDigit || ('a' ≤ c && c ≤ 'f') || ('A' ≤ c && c ≤ 'F'))

/-- `Bisecter.resolveCommit` from bisect.ts. `catalogCommit` is the commit the
update service reports for a version lookup (`fetchBuildByVersion`). JavaScript
`if (!commitOrVersion)` is a falsy test, so the empty string short-circuits to
`undefined` exactly like a missing argument. The trace records version
lookups. -/
def resolveCommit (catalogCommit : String) (commitOrVersion : Option String) :
    Except String (Option String) × List NetOp :=
  match commitOrVersion with
  | none => (.ok none, [])
  | some s =>
    if s = "" then
      (.ok none, [])
    else if isVersionFormat s then
      (.ok (some catalogCommit), [.versionLookup s])
    else if isFullCommitFormat s then
      (.ok (some s), [])
    else
      (.error "Invalid commit or version format.", [])

/-! ## Helper lemmas -/

theorem str_ext {s t : String} (h : s.data = t.data) : s = t := by
  cases s
  cases t
  exact congrArg String.mk h

theorem str_append_cancel {p1 p2 n1 n2 : String} (hlen : n1.length = n2.length)
    (h : p1 ++ n1 = p2 ++ n2) : p1 = p2 ∧ n1 = n2 := by
  have hd : p1.data ++ n1.data = p2.data ++ n2.data := by
    rw [← String.data_append, ← String.data_append, h]
  obtain ⟨hp, hn⟩ := List.append_inj' hd hlen
  exact ⟨str_ext hp, str_ext hn⟩

theorem str_append_cancel_left {p n1 n2 : String} (h : p ++ n1 = p ++ n2) : n1 = n2 := by
  have hd : p.data ++ n1.data = p.data ++ n2.data := by
    rw [← String.data_append, ← String.data_append, h]
  exact str_ext (List.append_cancel_left hd)

/-- The quality/flavor path component computed inside `getBuildPath`, including
the trailing separator when it is nonempty. -/
def qfPrefixPart (quality : Quality) (flavor : Flavor) : String :=
  let prefixes : List String :=
    (if quality = Quality.Stable then ["stable"]
     else if quality = Quality.Exploration then ["exploration"]
     else []) ++
    (if flavor ≠ Flavor.Default then [flavor.str] else [])
  if prefixes.length > 0 then String.intercalate "-" prefixes ++ "-" else ""

theorem getBuildPath_decomp (platform : Platform) (commit : String) (quality : Quality)
    (flavor : Flavor) :
    getBuildPath platform commit quality flavor =
      (BUILD_FOLDER ++ "/") ++
        (qfPrefixPart quality flavor ++
          (if platform.isWindows then substringTo commit 6 else commit)) := by
  have hw : (platform = Platform.WindowsX64 ∨ platform = Platform.WindowsArm) ↔
      platform.isWindows = true := by
    cases platform <;> simp [Platform.isWindows]
  apply str_ext
  cases quality <;> cases flavor <;>
    by_cases hpf : platform.isWindows = true <;>
      simp [getBuildPath, qfPrefixPart, BUILD_FOLDER, Flavor.str, hw, hpf,
        String.data_append, String.intercalate]

instance : Fintype Quality :=
  ⟨⟨[Quality.Insider, Quality.Stable, Quality.Exploration], by decide⟩,
    fun x => by cases x <;> decide⟩

instance : Fintype Flavor :=
  ⟨⟨[Flavor.Default, Flavor.DarwinUniversal, Flavor.WindowsUserInstaller,
     Flavor.WindowsSystemInstaller, Flavor.LinuxDeb, Flavor.LinuxRPM, Flavor.LinuxSnap,
     Flavor.Cli, Flavor.CliLinuxAmd64, Flavor.CliLinuxArm64, Flavor.CliLinuxArmv7,
     Flavor.CliAlpineAmd64, Flavor.CliAlpineArm64], by decide⟩,
    fun x => by cases x <;> decide⟩

theorem qfPrefixPart_inj :
    ∀ q1 f1 q2 f2, qfPrefixPart q1 f1 = qfPrefixPart q2 f2 → q1 = q2 ∧ f1 = f2 := by
  decide

/-! ## C9: cache-path collision freedom -/

/-- Two concrete 40-character commits sharing their first 6 characters. -/
def commitAAA : String := "aaaaaaaaaaaaaaaaaaaaaaaaaaaaaaaaaaaaaaaa"

/-- A second commit: same first 6 characters as `commitAAA`, different tail. -/
def commitAB : String := "aaaaaabbbbbbbbbbbbbbbbbbbbbbbbbbbbbbbbbb"

/-- A third commit, differing from `commitAAA` already in the first 6 characters. -/
def commitBBB : String := "bbbbbbbbbbbbbbbbbbbbbbbbbbbbbbbbbbbbbbbb"

/-- C9 counterexample: on Windows `getBuildPath` shortens the commit to its
first 6 characters, so two distinct (commit, quality, flavor) triples whose
40-character commits share a 6-character prefix map to the same cache folder.
The claimed per-OS injectivity of the cache-path function is false. -/
theorem getBuildPath_windows_collision :
    getBuildPath Platform.WindowsX64 commitAAA Quality.Insider Flavor.Default =
      getBuildPath Platform.WindowsX64 commitAB Quality.Insider Flavor.Default ∧
    (commitAAA, Quality.Insider, Flavor.Default) ≠ (commitAB, Quality.Insider, Flavor.Default) := by
  exact ⟨rfl, by decide⟩

/-- C9 (amended): for commits of equal length (such as 40-character SHAs),
`getBuildPath` is injective per target OS up to the commit shortening: on
non-Windows platforms any two distinct (commit, quality, flavor) triples give
distinct cache folders, and on Windows platforms any two triples that differ in
quality, flavor, or the first 6 characters of the commit give distinct cache
folders. -/
theorem getBuildPath_inj (platform : Platform) (c1 c2 : String) (q1 q2 : Quality)
    (f1 f2 : Flavor) (hlen : c1.length = c2.length)
    (hne : if platform.isWindows then
        (substringTo c1 6, q1, f1) ≠ (substringTo c2 6, q2, f2)
      else (c1, q1, f1) ≠ (c2, q2, f2)) :
    getBuildPath platform c1 q1 f1 ≠ getBuildPath platform c2 q2 f2 := by
  intro heq
  rw [getBuildPath_decomp, getBuildPath_decomp] at heq
  have hmid : qfPrefixPart q1 f1 ++ (if platform.isWindows then substringTo c1 6 else c1) =
      qfPrefixPart q2 f2 ++ (if platform.isWindows then substringTo c2 6 else c2) :=
    str_append_cancel_left heq
  have hdlen : c1.data.length = c2.data.length := hlen
  cases hpw : platform.isWindows
  case false =>
    rw [hpw] at hmid hne
    rw [if_neg Bool.false_ne_true] at hne
    rw [if_neg Bool.false_ne_true, if_neg Bool.false_ne_true] at hmid
    obtain ⟨hpp, hu⟩ := str_append_cancel hlen hmid
    obtain ⟨hq, hf⟩ := qfPrefixPart_inj _ _ _ _ hpp
    exact hne (by rw [hu, hq, hf])
  case true =>
    rw [hpw] at hmid hne
    rw [if_pos rfl] at hne
    rw [if_pos rfl, if_pos rfl] at hmid
    have hslen : (substringTo c1 6).length = (substringTo c2 6).length := by
      show (c1.data.take 6).length = (c2.data.take 6).length
      rw [List.length_take, List.length_take, hdlen]
    obtain ⟨hpp, hu⟩ := str_append_cancel hslen hmid
    obtain ⟨hq, hf⟩ := qfPrefixPart_inj _ _ _ _ hpp
    exact hne (by rw [hu, hq, hf])

/-- Witness for `getBuildPath_inj` at a concrete non-Windows input. -/
theorem getBuildPath_inj_witness :
    getBuildPath Platform.LinuxX64 commitAAA Quality.Insider Flavor.Default ≠
      getBuildPath Platform.LinuxX64 commitBBB Quality.Insider Flavor.Default :=
  getBuildPath_inj Platform.LinuxX64 commitAAA commitBBB Quality.Insider Quality.Insider
    Flavor.Default Flavor.Default (by decide) (by decide)

/-! ## Bisect loop lemmas -/

/-- Upper bound on the number of probes the loop makes from a state with the
given `currentChunk`. -/
def vBound (c : Nat) : Nat :=
  if c ≤ 1 then 1
  else 1 + vBound ((c + 1) / 2)
termination_by c
decreasing_by omega

theorem vBound_of_le_one {c : Nat} (h : c ≤ 1) : vBound c = 1 := by
  rw [vBound, if_pos h]

theorem vBound_of_two_le {c : Nat} (h : 2 ≤ c) : vBound c = 1 + vBound ((c + 1) / 2) := by
  rw [vBound, if_neg (by omega)]

theorem one_le_vBound (c : Nat) : 1 ≤ vBound c := by
  by_cases h : c ≤ 1
  · rw [vBound_of_le_one h]
  · rw [vBound_of_two_le (by omega)]
    omega

theorem vBound_le_clog (c : Nat) (hc : 1 ≤ c) : vBound c ≤ Nat.clog 2 c + 1 := by
  induction c using Nat.strong_induction_on with
  | _ c ih =>
    by_cases h : c ≤ 1
    · have hc1 : c = 1 := by omega
      subst hc1
      rw [vBound_of_le_one le_rfl, Nat.clog_one_right]
    · have h2 : 2 ≤ c := by omega
      rw [vBound_of_two_le h2]
      have hrec : Nat.clog 2 c = Nat.clog 2 ((c + 1) / 2) + 1 := by
        have := Nat.clog_of_two_le (b := 2) (by norm_num) h2
        simpa using this
      have hlt : (c + 1) / 2 < c := by omega
      have h1 : 1 ≤ (c + 1) / 2 := by omega
      have := ih _ hlt h1
      omega

theorem runLoop_isSome (range : List IBuild) (oracle : Nat → BisectResponse) :
    ∀ (fuel k : Nat) (s : IBisectState) (g b : Option IBuild),
      1 ≤ s.currentChunk → s.currentChunk ≤ fuel →
      (runLoop range oracle fuel k s g b).isSome := by
  intro fuel
  induction fuel with
  | zero => intro k s g b h1 h2; omega
  | succ fuel ih =>
    intro k s g b h1 _
    rw [runLoop]
    cases hget : jsGet range s.currentIndex with
    | none => simp
    | some build =>
      by_cases hq : oracle k = BisectResponse.Quit
      · simp [hq]
      · cases hfin : (nextState s (oracle k)).2 with
        | true => simp [hq, hfin]
        | false =>
          have hne1 : s.currentChunk ≠ 1 := by
            intro hone
            rw [nextState, if_pos hone] at hfin
            simp at hfin
          have hchunk : (nextState s (oracle k)).1.currentChunk = (s.currentChunk + 1) / 2 := by
            simp [nextState, hne1, roundHalf]
          have hrec := ih (k + 1) (nextState s (oracle k)).1
            (if oracle k = BisectResponse.Good then some build else g)
            (if oracle k = BisectResponse.Bad then some build else b)
            (by rw [hchunk]; omega) (by rw [hchunk]; omega)
          cases hm : runLoop range oracle fuel (k + 1) (nextState s (oracle k)).1
              (if oracle k = BisectResponse.Good then some build else g)
              (if oracle k = BisectResponse.Bad then some build else b) with
          | none => rw [hm] at hrec; simp at hrec
          | some res => simp [hq, hfin, hm]

theorem jsGet_mem {range : List IBuild} {i : Int} {build : IBuild}
    (h : jsGet range i = some build) : build ∈ range := by
  rw [jsGet] at h
  split at h
  · injection h with h
    subst h
    exact List.get_mem ..
  · simp at h

theorem jsGet_bounds {range : List IBuild} {i : Int} {build : IBuild}
    (h : jsGet range i = some build) : 0 ≤ i ∧ i < (range.length : Int) := by
  rw [jsGet] at h
  split at h
  case isTrue hc => omega
  case isFalse => simp at h

theorem nextState_of_fin {s : IBisectState} {r : BisectResponse}
    (h : (nextState s r).2 = true) : (nextState s r).1 = s := by
  by_cases h1 : s.currentChunk = 1
  · simp [nextState, h1]
  · simp [nextState, h1] at h

theorem nextState_of_not_fin {s : IBisectState} {r : BisectResponse}
    (h : (nextState s r).2 = false) (hc : 1 ≤ s.currentChunk) :
    (nextState s r).1.currentChunk = (s.currentChunk + 1) / 2 ∧ 2 ≤ s.currentChunk := by
  by_cases h1 : s.currentChunk = 1
  · simp [nextState, h1] at h
  · refine ⟨?_, by omega⟩
    simp [nextState, h1, roundHalf]

/-- The chunk of the second state does not exceed the chunk of the first. -/
def chunkGE (a b : IBisectState) : Prop := b.currentChunk ≤ a.currentChunk

/-- Combined invariants of the bisect loop: the probe count is bounded by
`vBound` of the entering chunk, every probed build is in the range, every
probed state has its index inside `[0, range.length)`, and the chunk is
non-increasing along the visited states down to the final state. -/
theorem runLoop_spec (range : List IBuild) (oracle : Nat → BisectResponse) :
    ∀ (fuel k : Nat) (s : IBisectState) (g b : Option IBuild) (res : LoopResult),
      1 ≤ s.currentChunk →
      runLoop range oracle fuel k s g b = some res →
      res.probes.length ≤ vBound s.currentChunk ∧
      (∀ x ∈ res.probes, x ∈ range) ∧
      (∀ t ∈ res.trace, 0 ≤ t.currentIndex ∧ t.currentIndex < (range.length : Int)) ∧
      (∀ x : IBisectState, s.currentChunk ≤ x.currentChunk →
        List.Chain' chunkGE (x :: (res.trace ++ [res.final]))) := by
  intro fuel
  induction fuel with
  | zero =>
    intro k s g b res hc h
    simp [runLoop] at h
  | succ fuel ih =>
    intro k s g b res hc h
    rw [runLoop] at h
    cases hget : jsGet range s.currentIndex with
    | none =>
      simp only [hget] at h
      injection h with h
      subst h
      refine ⟨by simp [Nat.zero_le], by simp, by simp, ?_⟩
      intro x hx
      exact List.chain'_cons.2 ⟨hx, List.chain'_singleton _⟩
    | some build =>
      simp only [hget] at h
      by_cases hq : oracle k = BisectResponse.Quit
      · rw [if_pos hq] at h
        injection h with h
        subst h
        refine ⟨by simpa using one_le_vBound _, ?_, ?_, ?_⟩
        · intro x hx
          rw [List.mem_singleton] at hx
          subst hx
          exact jsGet_mem hget
        · intro t ht
          rw [List.mem_singleton] at ht
          subst ht
          exact jsGet_bounds hget
        · intro x hx
          exact List.chain'_cons.2 ⟨hx, List.chain'_cons.2 ⟨le_rfl, List.chain'_singleton _⟩⟩
      · rw [if_neg hq] at h
        cases hfin : (nextState s (oracle k)).2 with
        | true =>
          rw [hfin, if_pos rfl] at h
          injection h with h
          subst h
          refine ⟨by simpa using one_le_vBound _, ?_, ?_, ?_⟩
          · intro x hx
            rw [List.mem_singleton] at hx
            subst hx
            exact jsGet_mem hget
          · intro t ht
            rw [List.mem_singleton] at ht
            subst ht
            exact jsGet_bounds hget
          · intro x hx
            rw [nextState_of_fin hfin]
            exact List.chain'_cons.2 ⟨hx, List.chain'_cons.2 ⟨le_rfl, List.chain'_singleton _⟩⟩
        | false =>
          rw [hfin] at h
          rw [if_neg (by simp)] at h
          obtain ⟨hchunk, h2c⟩ := nextState_of_not_fin hfin hc
          cases hm : runLoop range oracle fuel (k + 1) (nextState s (oracle k)).1
              (if oracle k = BisectResponse.Good then some build else g)
              (if oracle k = BisectResponse.Bad then some build else b) with
          | none =>
            rw [hm] at h
            simp at h
          | some res2 =>
            rw [hm] at h
            injection h with h
            subst h
            obtain ⟨ih1, ih2, ih3, ih4⟩ := ih (k + 1) (nextState s (oracle k)).1
              (if oracle k = BisectResponse.Good then some build else g)
              (if oracle k = BisectResponse.Bad then some build else b) res2
              (by rw [hchunk]; omega) hm
            refine ⟨?_, ?_, ?_, ?_⟩
            · have hv := vBound_of_two_le h2c
              rw [hchunk] at ih1
              simp only [List.length_cons]
              omega
            · intro x hx
              rcases List.mem_cons.1 hx with hx | hx
              · subst hx
                exact jsGet_mem hget
              · exact ih2 x hx
            · intro t ht
              rcases List.mem_cons.1 ht with ht | ht
              · subst ht
                exact jsGet_bounds hget
              · exact ih3 t ht
            · intro x hx
              simp only [List.cons_append]
              refine List.chain'_cons.2 ⟨hx, ?_⟩
              exact ih4 s (by rw [hchunk]; omega)

/-- A desktop/insider/default build with the given commit, used as a concrete
fixture. -/
def bDesk (c : String) : IBuild :=
  ⟨⟨Runtime.DesktopLocal, Quality.Insider, Flavor.Default⟩, c⟩

/-- The concrete range `[c5, c4, c3, c2, c1, c0]` (newest to oldest) from the
specification's worked example. -/
def sixRange : List IBuild :=
  [bDesk "c5", bDesk "c4", bDesk "c3", bDesk "c2", bDesk "c1", bDesk "c0"]

theorem seedState_chunk {n : Nat} (h : 2 ≤ n) :
    (seedState n).currentChunk = (n + 1) / 2 ∧ (seedState n).currentIndex = ((n + 1) / 2 : Nat) := by
  have h1 : n ≠ 1 := by omega
  constructor <;> simp [seedState, initState, nextState, roundHalf, h1]

/-- C3: For every non-empty ordered build range of length N and every sequence
of Good/Bad/Quit verdicts, the bisection loop of `Bisecter.start` (seeded with
`currentChunk = N`, `currentIndex = 0` and advanced once as if the verdict were
Bad) terminates and requests at most `ceil(log2 N) + 1` verdicts. -/
theorem bisect_terminates_log_steps (range : List IBuild) (oracle : Nat → BisectResponse)
    (h : 0 < range.length) :
    ∃ res, startBisect range oracle = some res ∧
      res.probes.length ≤ Nat.clog 2 range.length + 1 := by
  by_cases hlen : range.length < 2
  · refine ⟨_, by rw [startBisect, if_pos hlen], by simp⟩
  · push_neg at hlen
    have hseed := seedState_chunk hlen
    have hsome := runLoop_isSome range oracle range.length 0 (seedState range.length) none none
      (by omega) (by omega)
    obtain ⟨res, hres⟩ := Option.isSome_iff_exists.1 hsome
    refine ⟨res, ?_, ?_⟩
    · rw [startBisect, if_neg (by omega)]
      exact hres
    · obtain ⟨h1, -, -, -⟩ := runLoop_spec range oracle range.length 0 (seedState range.length)
        none none res (by omega) hres
      have h2 : vBound ((range.length + 1) / 2) ≤ Nat.clog 2 ((range.length + 1) / 2) + 1 :=
        vBound_le_clog _ (by omega)
      have h3 : Nat.clog 2 range.length = Nat.clog 2 ((range.length + 1) / 2) + 1 := by
        have := Nat.clog_of_two_le (b := 2) (by norm_num) hlen
        simpa using this
      rw [hseed.1] at h1
      omega

/-- Witness for `bisect_terminates_log_steps` at a concrete range. -/
theorem bisect_terminates_log_steps_witness :
    ∃ res, startBisect sixRange (fun _ => BisectResponse.Good) = some res ∧
      res.probes.length ≤ Nat.clog 2 sixRange.length + 1 :=
  bisect_terminates_log_steps sixRange (fun _ => BisectResponse.Good) (by decide)

/-- C4: in every reachable state of the bisection loop, `currentChunk` never
increases across a step (from the initial state through every probed state to
the final one), and `currentIndex` stays within `[0, range.length)` at every
state in which the loop probes a build. -/
theorem bisect_invariants (range : List IBuild) (oracle : Nat → BisectResponse)
    (h : 2 ≤ range.length) :
    ∃ res, startBisect range oracle = some res ∧
      List.Chain' chunkGE (initState range.length :: (res.trace ++ [res.final])) ∧
      ∀ t ∈ res.trace, 0 ≤ t.currentIndex ∧ t.currentIndex < (range.length : Int) := by
  have hseed := seedState_chunk h
  have hsome := runLoop_isSome range oracle range.length 0 (seedState range.length) none none
    (by omega) (by omega)
  obtain ⟨res, hres⟩ := Option.isSome_iff_exists.1 hsome
  obtain ⟨-, -, h3, h4⟩ := runLoop_spec range oracle range.length 0 (seedState range.length)
    none none res (by omega) hres
  refine ⟨res, ?_, ?_, h3⟩
  · rw [startBisect, if_neg (by omega)]
    exact hres
  · exact h4 (initState range.length) (by simp [initState]; omega)

/-- Witness for `bisect_invariants` at a concrete range and verdicts. -/
theorem bisect_invariants_witness :
    ∃ res, startBisect sixRange (fun _ => BisectResponse.Bad) = some res ∧
      List.Chain' chunkGE (initState sixRange.length :: (res.trace ++ [res.final])) ∧
      ∀ t ∈ res.trace, 0 ≤ t.currentIndex ∧ t.currentIndex < (sixRange.length : Int) :=
  bisect_invariants sixRange (fun _ => BisectResponse.Bad) (by decide)

/-- The verdict sequence of the specification's worked example: `Bad` for the
first probe, `Good` for the second, and `r3` for any further probe. -/
def oracle53 (r3 : BisectResponse) : Nat → BisectResponse := fun k =>
  if k = 0 then BisectResponse.Bad else if k = 1 then BisectResponse.Good else r3

/-- C5 counterexample: on the range `[c5,...,c0]` with verdicts `Bad` then
`Good`, the loop does not terminate after those two verdicts — a third verdict
is requested (at index 4) before the loop stops, so the claim that the loop
terminates after exactly one `Bad` and one `Good` verdict is false. -/
theorem bisect_example_six_range_counterexample :
    (startBisect sixRange (oracle53 BisectResponse.Good)).map (fun r => r.probes.length) ≠
      some 2 ∧
    (startBisect sixRange (oracle53 BisectResponse.Good)).map (fun r => r.probes.length) =
      some 3 := by
  decide

/-- C5 (amended): on the range `[c5,...,c0]` the seed step takes
`currentChunk` from 6 to 3 and the first probe is at index 3; after one `Bad`
and one `Good` verdict `currentChunk` equals 1, but the loop requests one more
verdict at index 4; after that third verdict (whether `Good` or `Bad`) the
loop terminates reporting a (good, bad) pair adjacent in the range, with the
bad build at the newer (lower) index. -/
theorem bisect_example_six_range (r3 : BisectResponse) (h : r3 ≠ BisectResponse.Quit) :
    nextState (initState 6) BisectResponse.Bad = (⟨3, (3 : Int)⟩, false) ∧
    ∃ res, startBisect sixRange (oracle53 r3) = some res ∧
      res.probes.map (fun b => b.commit) = ["c2", "c0", "c1"] ∧
      res.trace = [⟨3, 3⟩, ⟨2, 5⟩, ⟨1, 4⟩] ∧
      ∃ j : Int, res.bad = jsGet sixRange j ∧ res.good = jsGet sixRange (j + 1) := by
  cases r3 with
  | Quit => exact absurd rfl h
  | Good =>
    refine ⟨by decide, ⟨[bDesk "c2", bDesk "c0", bDesk "c1"],
      [⟨3, 3⟩, ⟨2, 5⟩, ⟨1, 4⟩], some (bDesk "c1"), some (bDesk "c2"), false, ⟨1, 4⟩⟩,
      by decide, by decide, by decide, 3, by decide, by decide⟩
  | Bad =>
    refine ⟨by decide, ⟨[bDesk "c2", bDesk "c0", bDesk "c1"],
      [⟨3, 3⟩, ⟨2, 5⟩, ⟨1, 4⟩], some (bDesk "c0"), some (bDesk "c1"), false, ⟨1, 4⟩⟩,
      by decide, by decide, by decide, 4, by decide, by decide⟩

/-- Witness for `bisect_example_six_range` with `Good` as the third verdict. -/
theorem bisect_example_six_range_witness :
    nextState (initState 6) BisectResponse.Bad = (⟨3, (3 : Int)⟩, false) ∧
    ∃ res, startBisect sixRange (oracle53 BisectResponse.Good) = some res ∧
      res.probes.map (fun b => b.commit) = ["c2", "c0", "c1"] ∧
      res.trace = [⟨3, 3⟩, ⟨2, 5⟩, ⟨1, 4⟩] ∧
      ∃ j : Int, res.bad = jsGet sixRange j ∧ res.good = jsGet sixRange (j + 1) :=
  bisect_example_six_range BisectResponse.Good (by decide)

/-! ## Range construction lemmas (C6, C7, C8) -/

theorem boundaryIdx_some (c : String) (bs : List IBuild) (d : Int) :
    boundaryIdx (some c) bs d = (indexOfCommit c bs).map (fun i => (i : Int)) := rfl

theorem rangeOf_error {all : List IBuild} {gi bi : Int} (h : bi ≥ gi) (ex : List String) :
    rangeOf all gi bi ex = .error .invalidRange := by
  rw [rangeOf, if_pos h]

theorem rangeOf_ok {all : List IBuild} {gi bi : Nat} (hlt : bi < gi) (ex : List String) :
    rangeOf all gi bi ex =
      .ok (((all.drop bi).take (gi + 1 - bi)).filter (fun b => !(ex.contains b.commit))) := by
  have hcond : ¬ ((bi : Int) ≥ (gi : Int)) := by omega
  rw [rangeOf, if_neg hcond]
  have h1 : ((bi : Int)).toNat = bi := by omega
  have h2 : ((gi : Int) + 1 - (bi : Int)).toNat = gi + 1 - bi := by omega
  rw [h1, h2]
  by_cases hex : ex.length > 0
  · simp [hex]
  · have hex0 : ex = [] := by
      cases ex with
      | nil => rfl
      | cons a l => simp at hex
    subst hex0
    simp

theorem countP_filter_not_add (l : List IBuild) (q : IBuild → Bool) :
    (l.filter (fun b => !q b)).length + l.countP q = l.length := by
  induction l with
  | nil => rfl
  | cons a l ih =>
    cases hq : q a <;>
      simp [List.countP_cons, List.filter_cons, hq] <;> omega

/-- C6: for every pair of resolved good/bad boundary commits whose bad index is
not strictly lower (newer) than the good index — including equal commits —
`fetchBuilds` fails with the invalid-range error, and the session launches no
build. -/
theorem fetchBuilds_invalid_range (kind : IBuildKind) (commitsFn : Bool → List String)
    (goodC badC : String) (releasedOnly : Bool) (ex : List String)
    (oracle : Nat → BisectResponse) (gi bi : Nat)
    (hg : indexOfCommit goodC (mkBuilds kind (commitsFn releasedOnly)) = some gi)
    (hb : indexOfCommit badC (mkBuilds kind (commitsFn releasedOnly)) = some bi)
    (hle : gi ≤ bi) :
    bisectSession kind commitsFn (some goodC) (some badC) releasedOnly ex oracle =
      .error .invalidRange ∧
    launchesOf (bisectSession kind commitsFn (some goodC) (some badC) releasedOnly ex oracle) =
      [] := by
  have hfetch : (fetchBuilds kind commitsFn (some goodC) (some badC) releasedOnly ex).1 =
      .error .invalidRange := by
    have hrange : rangeOf (mkBuilds kind (commitsFn releasedOnly)) gi bi ex =
        .error .invalidRange :=
      rangeOf_error (by omega) ex
    cases releasedOnly with
    | true => simp [fetchBuilds, fetchBuildsFinal, boundaryIdx, hg, hb, hrange]
    | false => simp [fetchBuilds, boundaryIdx, hg, hb, hrange]
  have hsess : bisectSession kind commitsFn (some goodC) (some badC) releasedOnly ex oracle =
      .error .invalidRange := by
    rw [bisectSession, hfetch]
  refine ⟨hsess, ?_⟩
  rw [hsess]
  rfl

/-- Witness for `fetchBuilds_invalid_range`: equal-or-older bad boundary on a
concrete two-build catalog. -/
theorem fetchBuilds_invalid_range_witness :
    bisectSession ⟨Runtime.DesktopLocal, Quality.Insider, Flavor.Default⟩
        (fun _ => ["c1", "c0"]) (some "c1") (some "c0") true []
        (fun _ => BisectResponse.Good) = .error .invalidRange ∧
    launchesOf (bisectSession ⟨Runtime.DesktopLocal, Quality.Insider, Flavor.Default⟩
        (fun _ => ["c1", "c0"]) (some "c1") (some "c0") true []
        (fun _ => BisectResponse.Good)) = [] :=
  fetchBuilds_invalid_range ⟨Runtime.DesktopLocal, Quality.Insider, Flavor.Default⟩
    (fun _ => ["c1", "c0"]) "c1" "c0" true [] (fun _ => BisectResponse.Good) 0 1
    (by decide) (by decide) (by decide)

/-- C7: boundary resolution retries exactly once against the released-only
list. A good or bad boundary commit missing from the unreleased list makes the
non-released `fetchBuilds` call delegate to the released-only pass (after a
second commit-list fetch); in that pass a boundary missing from the released
list is a fatal commit-not-found error, while boundaries that resolve there
proceed to range construction. -/
theorem fetchBuilds_retry_released (kind : IBuildKind) (commitsFn : Bool → List String)
    (good bad : Option String) (ex : List String) :
    (∀ g, good = some g →
      indexOfCommit g (mkBuilds kind (commitsFn false)) = none →
      fetchBuilds kind commitsFn good bad false ex =
        (fetchBuildsFinal kind (commitsFn true) good bad ex,
          [NetOp.listCommits false, NetOp.listCommits true])) ∧
    (∀ b gi, bad = some b →
      boundaryIdx good (mkBuilds kind (commitsFn false))
        (((mkBuilds kind (commitsFn false)).length : Int) - 1) = some gi →
      indexOfCommit b (mkBuilds kind (commitsFn false)) = none →
      fetchBuilds kind commitsFn good bad false ex =
        (fetchBuildsFinal kind (commitsFn true) good bad ex,
          [NetOp.listCommits false, NetOp.listCommits true])) ∧
    (∀ g, good = some g →
      indexOfCommit g (mkBuilds kind (commitsFn true)) = none →
      fetchBuildsFinal kind (commitsFn true) good bad ex = .error (.commitNotFound g)) ∧
    (∀ b gi, bad = some b →
      boundaryIdx good (mkBuilds kind (commitsFn true))
        (((mkBuilds kind (commitsFn true)).length : Int) - 1) = some gi →
      indexOfCommit b (mkBuilds kind (commitsFn true)) = none →
      fetchBuildsFinal kind (commitsFn true) good bad ex = .error (.commitNotFound b)) ∧
    (∀ gi bi,
      boundaryIdx good (mkBuilds kind (commitsFn true))
        (((mkBuilds kind (commitsFn true)).length : Int) - 1) = some gi →
      boundaryIdx bad (mkBuilds kind (commitsFn true)) 0 = some bi →
      fetchBuildsFinal kind (commitsFn true) good bad ex =
        rangeOf (mkBuilds kind (commitsFn true)) gi bi ex) := by
  refine ⟨?_, ?_, ?_, ?_, ?_⟩
  · intro g hgood hmiss
    subst hgood
    simp [fetchBuilds, boundaryIdx, hmiss]
  · intro b gi hbad hgood hmiss
    subst hbad
    simp [fetchBuilds, hgood, boundaryIdx_some, hmiss]
  · intro g hgood hmiss
    subst hgood
    simp [fetchBuildsFinal, boundaryIdx, hmiss]
  · intro b gi hbad hgood hmiss
    subst hbad
    simp [fetchBuildsFinal, hgood, boundaryIdx_some, hmiss]
  · intro gi bi hgood hbad
    simp [fetchBuildsFinal, hgood, hbad]

/-- Witness for `fetchBuilds_retry_released`: the commit `cx` is absent from
the unreleased list and present in the released list, so the non-released call
retries once and then succeeds into range construction. -/
theorem fetchBuilds_retry_released_witness :
    fetchBuilds ⟨Runtime.DesktopLocal, Quality.Insider, Flavor.Default⟩
        (fun rel => if rel then ["c2", "cx", "c0"] else ["c2", "c0"])
        (some "cx") none false [] =
      (fetchBuildsFinal ⟨Runtime.DesktopLocal, Quality.Insider, Flavor.Default⟩
        ["c2", "cx", "c0"] (some "cx") none [],
        [NetOp.listCommits false, NetOp.listCommits true]) ∧
    fetchBuildsFinal ⟨Runtime.DesktopLocal, Quality.Insider, Flavor.Default⟩
        ["c2", "cx", "c0"] (some "cx") none [] =
      rangeOf (mkBuilds ⟨Runtime.DesktopLocal, Quality.Insider, Flavor.Default⟩
        ["c2", "cx", "c0"]) 1 0 [] := by
  constructor
  · exact (fetchBuilds_retry_released ⟨Runtime.DesktopLocal, Quality.Insider, Flavor.Default⟩
      (fun rel => if rel then ["c2", "cx", "c0"] else ["c2", "c0"])
      (some "cx") none []).1 "cx" rfl (by decide)
  · exact (fetchBuilds_retry_released ⟨Runtime.DesktopLocal, Quality.Insider, Flavor.Default⟩
      (fun rel => if rel then ["c2", "cx", "c0"] else ["c2", "c0"])
      (some "cx") none []).2.2.2.2 1 0 (by decide) (by decide)

/-- `allBuilds.slice(badCommitIndex, goodCommitIndex + 1)` for in-range natural
indices. -/
def sliceRange (all : List IBuild) (gi bi : Nat) : List IBuild :=
  (all.drop bi).take (gi + 1 - bi)

theorem startBisect_probes_mem {range : List IBuild} {oracle : Nat → BisectResponse}
    {res : LoopResult} (h : startBisect range oracle = some res) :
    ∀ x ∈ res.probes, x ∈ range := by
  rw [startBisect] at h
  split at h
  · injection h with h
    subst h
    simp
  · next hlen =>
    have h2 : 2 ≤ range.length := by omega
    have hseed := seedState_chunk h2
    exact (runLoop_spec range oracle range.length 0 (seedState range.length) none none res
      (by omega) h).2.1

/-- C8: when both boundaries resolve with the bad boundary strictly newer,
`fetchBuilds` returns the sliced range with every excluded commit removed: the
result length is the sliced length minus the number of excluded commits in the
slice, no build of the result carries an excluded commit, and no launch target
of the session carries an excluded commit. -/
theorem fetchBuilds_excludes (kind : IBuildKind) (commitsFn : Bool → List String)
    (goodC badC : String) (releasedOnly : Bool) (ex : List String)
    (oracle : Nat → BisectResponse) (gi bi : Nat)
    (hg : indexOfCommit goodC (mkBuilds kind (commitsFn releasedOnly)) = some gi)
    (hb : indexOfCommit badC (mkBuilds kind (commitsFn releasedOnly)) = some bi)
    (hlt : bi < gi) :
    (fetchBuilds kind commitsFn (some goodC) (some badC) releasedOnly ex).1 =
      .ok ((sliceRange (mkBuilds kind (commitsFn releasedOnly)) gi bi).filter
        (fun b => !(ex.contains b.commit))) ∧
    ((sliceRange (mkBuilds kind (commitsFn releasedOnly)) gi bi).filter
        (fun b => !(ex.contains b.commit))).length +
      (sliceRange (mkBuilds kind (commitsFn releasedOnly)) gi bi).countP
        (fun b => ex.contains b.commit) =
      (sliceRange (mkBuilds kind (commitsFn releasedOnly)) gi bi).length ∧
    (∀ b ∈ (sliceRange (mkBuilds kind (commitsFn releasedOnly)) gi bi).filter
        (fun b => !(ex.contains b.commit)), ex.contains b.commit = false) ∧
    (∀ b ∈ launchesOf
        (bisectSession kind commitsFn (some goodC) (some badC) releasedOnly ex oracle),
      ex.contains b.commit = false) := by
  have hrange : rangeOf (mkBuilds kind (commitsFn releasedOnly)) gi bi ex =
      .ok ((sliceRange (mkBuilds kind (commitsFn releasedOnly)) gi bi).filter
        (fun b => !(ex.contains b.commit))) :=
    rangeOf_ok hlt ex
  have hfetch : (fetchBuilds kind commitsFn (some goodC) (some badC) releasedOnly ex).1 =
      .ok ((sliceRange (mkBuilds kind (commitsFn releasedOnly)) gi bi).filter
        (fun b => !(ex.contains b.commit))) := by
    cases releasedOnly with
    | true => simp [fetchBuilds, fetchBuildsFinal, boundaryIdx_some, hg, hb, hrange]
    | false => simp [fetchBuilds, boundaryIdx_some, hg, hb, hrange]
  have hmemf : ∀ b ∈ (sliceRange (mkBuilds kind (commitsFn releasedOnly)) gi bi).filter
      (fun b => !(ex.contains b.commit)), ex.contains b.commit = false := by
    intro b hbm
    have := (List.mem_filter.1 hbm).2
    simpa using this
  refine ⟨hfetch, countP_filter_not_add _ _, hmemf, ?_⟩
  intro b hbm
  have hsess : bisectSession kind commitsFn (some goodC) (some badC) releasedOnly ex oracle =
      .ok (startBisect ((sliceRange (mkBuilds kind (commitsFn releasedOnly)) gi bi).filter
        (fun b => !(ex.contains b.commit))) oracle) := by
    rw [bisectSession, hfetch]
  rw [hsess] at hbm
  cases hsb : startBisect ((sliceRange (mkBuilds kind (commitsFn releasedOnly)) gi bi).filter
      (fun b => !(ex.contains b.commit))) oracle with
  | none =>
    rw [hsb] at hbm
    simp [launchesOf] at hbm
  | some res =>
    rw [hsb] at hbm
    have hm : b ∈ res.probes := hbm
    exact hmemf b (startBisect_probes_mem hsb b hm)

/-- Witness for `fetchBuilds_excludes`: excluding `c2` from the three-build
slice removes exactly that build and it is never a launch target. -/
theorem fetchBuilds_excludes_witness :
    (fetchBuilds ⟨Runtime.DesktopLocal, Quality.Insider, Flavor.Default⟩
        (fun _ => ["c3", "c2", "c1", "c0"]) (some "c0") (some "c3") true ["c2"]).1 =
      .ok ((sliceRange (mkBuilds ⟨Runtime.DesktopLocal, Quality.Insider, Flavor.Default⟩
        ["c3", "c2", "c1", "c0"]) 3 0).filter (fun b => !(["c2"].contains b.commit))) ∧
    ((sliceRange (mkBuilds ⟨Runtime.DesktopLocal, Quality.Insider, Flavor.Default⟩
        ["c3", "c2", "c1", "c0"]) 3 0).filter (fun b => !(["c2"].contains b.commit))).length +
      (sliceRange (mkBuilds ⟨Runtime.DesktopLocal, Quality.Insider, Flavor.Default⟩
        ["c3", "c2", "c1", "c0"]) 3 0).countP (fun b => ["c2"].contains b.commit) =
      (sliceRange (mkBuilds ⟨Runtime.DesktopLocal, Quality.Insider, Flavor.Default⟩
        ["c3", "c2", "c1", "c0"]) 3 0).length ∧
    (∀ b ∈ (sliceRange (mkBuilds ⟨Runtime.DesktopLocal, Quality.Insider, Flavor.Default⟩
        ["c3", "c2", "c1", "c0"]) 3 0).filter (fun b => !(["c2"].contains b.commit)),
      ["c2"].contains b.commit = false) ∧
    (∀ b ∈ launchesOf (bisectSession ⟨Runtime.DesktopLocal, Quality.Insider, Flavor.Default⟩
        (fun _ => ["c3", "c2", "c1", "c0"]) (some "c0") (some "c3") true ["c2"]
        (fun _ => BisectResponse.Bad)),
      ["c2"].contains b.commit = false) :=
  fetchBuilds_excludes ⟨Runtime.DesktopLocal, Quality.Insider, Flavor.Default⟩
    (fun _ => ["c3", "c2", "c1", "c0"]) "c0" "c3" true ["c2"]
    (fun _ => BisectResponse.Bad) 3 0 (by decide) (by decide) (by decide)

/-! ## C10: resolveCommit input validation -/

/-- C10 counterexample: the empty string matches neither the version pattern
nor the 40-hex pattern, yet `resolveCommit` does not throw on it — JavaScript's
falsy test `!commitOrVersion` treats `""` like a missing argument and returns
`undefined` without any catalog request. -/
theorem resolveCommit_empty_not_error :
    isVersionFormat "" = false ∧ isFullCommitFormat "" = false ∧
    resolveCommit "cat" (some "") = (.ok none, []) :=
  ⟨rfl, rfl, rfl⟩

/-- C10 (amended): `resolveCommit` validates its input at the interface: for a
missing argument or the empty string it returns `undefined` with no catalog
request; for a `digits.digits` version it resolves via the catalog; for a
40-character hexadecimal string it returns the input unchanged without a
catalog request; and for every other non-empty string it throws the
invalid-format error without a catalog request. -/
theorem resolveCommit_spec (catalogCommit : String) (input : Option String) :
    (input = none → resolveCommit catalogCommit input = (.ok none, [])) ∧
    (input = some "" → resolveCommit catalogCommit input = (.ok none, [])) ∧
    (∀ s, input = some s → isVersionFormat s = true →
      resolveCommit catalogCommit input =
        (.ok (some catalogCommit), [.versionLookup s])) ∧
    (∀ s, input = some s → isVersionFormat s = false → isFullCommitFormat s = true →
      resolveCommit catalogCommit input = (.ok (some s), [])) ∧
    (∀ s, input = some s → s ≠ "" → isVersionFormat s = false → isFullCommitFormat s = false →
      resolveCommit catalogCommit input =
        (.error "Invalid commit or version format.", [])) := by
  refine ⟨?_, ?_, ?_, ?_, ?_⟩
  · intro h
    subst h
    rfl
  · intro h
    subst h
    rfl
  · intro s hin hv
    subst hin
    have hne : s ≠ "" := by
      intro h0
      subst h0
      exact absurd hv (by decide)
    simp only [resolveCommit]
    rw [if_neg hne, if_pos hv]
  · intro s hin hv hf
    subst hin
    have hne : s ≠ "" := by
      intro h0
      subst h0
      exact absurd hf (by decide)
    simp only [resolveCommit]
    rw [if_neg hne, if_neg (by simp [hv]), if_pos hf]
  · intro s hin hne hv hf
    subst hin
    simp only [resolveCommit]
    rw [if_neg hne, if_neg (by simp [hv]), if_neg (by simp [hf])]

/-- Witness for `resolveCommit_spec`: a version input resolves through the
catalog, and a 40-hex input is returned unchanged. -/
theorem resolveCommit_spec_witness :
    resolveCommit "cat" (some "1.80") = (.ok (some "cat"), [.versionLookup "1.80"]) ∧
    resolveCommit "cat" (some commitAAA) = (.ok (some commitAAA), []) :=
  ⟨(resolveCommit_spec "cat" (some "1.80")).2.2.1 "1.80" rfl (by decide),
    (resolveCommit_spec "cat" (some commitAAA)).2.2.2.1 commitAAA rfl (by decide) (by decide)⟩

/-! ## C1, C2: materialize (downloadAndExtractBuild) -/

/-- Recognizes an artifact download in a network trace. -/
def isDownloadOp : NetOp → Bool
  | .download _ => true
  | _ => false

theorem getBuildDownloadName_ops (platform : Platform) (arch : Arch) (b : IBuild)
    (meta : IBuildMetadata) :
    (getBuildDownloadName platform arch b meta).2 = [] ∨
    (getBuildDownloadName platform arch b meta).2 = [NetOp.meta b.commit] := by
  obtain ⟨⟨rt, q, f⟩, c⟩ := b
  cases rt <;> cases platform <;> cases f <;> simp [getBuildDownloadName]

theorem getBuildDownloadName_no_download (platform : Platform) (arch : Arch) (b : IBuild)
    (meta : IBuildMetadata) :
    (getBuildDownloadName platform arch b meta).2.countP isDownloadOp = 0 := by
  rcases getBuildDownloadName_ops platform arch b meta with h | h <;>
    simp [h, List.countP_cons, isDownloadOp]

theorem materialize_mismatch_eq (platform : Platform) (arch : Arch) (b : IBuild) (w : DiskWorld)
    (hdock : isDockerCliFlavor b.flavor = false)
    (hnc : w.files.contains (archivePath platform arch b w.meta) = false)
    (hmm : w.meta.sha256hash ≠ w.downloadSha) :
    downloadAndExtractBuild platform arch b false w =
      (.error "expected SHA256 checksum does not match with download",
        ⟨archivePath platform arch b w.meta :: w.files, w.meta, w.downloadSha⟩,
        (getBuildDownloadName platform arch b w.meta).2 ++
          [.meta b.commit, .download w.meta.url]) := by
  rw [archivePath] at hnc
  have hmem : ¬ (getBuildPath platform b.commit b.quality b.flavor ++ "/" ++
      (getBuildDownloadName platform arch b w.meta).1) ∈ w.files := by
    simpa using hnc
  simp only [downloadAndExtractBuild]
  simp [hdock, hmem, hmm, archivePath]

theorem materialize_cached_eq (platform : Platform) (arch : Arch) (b : IBuild) (w : DiskWorld)
    (hdock : isDockerCliFlavor b.flavor = false)
    (hc : w.files.contains (archivePath platform arch b w.meta) = true) :
    downloadAndExtractBuild platform arch b false w =
      (.ok (some (archivePath platform arch b w.meta)), w,
        (getBuildDownloadName platform arch b w.meta).2) := by
  rw [archivePath] at hc
  have hmem : (getBuildPath platform b.commit b.quality b.flavor ++ "/" ++
      (getBuildDownloadName platform arch b w.meta).1) ∈ w.files := by
    simpa using hc
  simp only [downloadAndExtractBuild]
  simp [hdock, hmem, archivePath]

/-- C1 (amended): a checksum mismatch during `downloadAndExtractBuild` is a
fatal thrown error, as claimed — but the downloaded file stays at the cache
path, so a subsequent call with `forceReDownload` unset returns that corrupt
file as a cached artifact (the second half of the claim fails on the code). -/
theorem materialize_mismatch_leaves_cache (platform : Platform) (arch : Arch) (b : IBuild)
    (w : DiskWorld) (hdock : isDockerCliFlavor b.flavor = false)
    (hnc : w.files.contains (archivePath platform arch b w.meta) = false)
    (hmm : w.meta.sha256hash ≠ w.downloadSha) :
    (downloadAndExtractBuild platform arch b false w).1 =
      .error "expected SHA256 checksum does not match with download" ∧
    (downloadAndExtractBuild platform arch b false w).2.1.files.contains
      (archivePath platform arch b w.meta) = true ∧
    (downloadAndExtractBuild platform arch b false
        (downloadAndExtractBuild platform arch b false w).2.1).1 =
      .ok (some (archivePath platform arch b w.meta)) := by
  have h1 := materialize_mismatch_eq platform arch b w hdock hnc hmm
  have hc : (⟨archivePath platform arch b w.meta :: w.files, w.meta, w.downloadSha⟩ :
      DiskWorld).files.contains (archivePath platform arch b w.meta) = true := by
    simp [List.contains]
  refine ⟨by rw [h1], by rw [h1]; exact hc, ?_⟩
  rw [h1]
  have h2 := materialize_cached_eq platform arch b
    ⟨archivePath platform arch b w.meta :: w.files, w.meta, w.downloadSha⟩ hdock hc
  rw [h2]

/-- C1 counterexample: a concrete run in which the checksum mismatches — the
first `materialize` call throws, yet the immediately following call with
`forceReDownload` unset returns the corrupt downloaded file as cached, so the
claim that no subsequent non-forced call can see the corrupt file is false. -/
theorem materialize_mismatch_counterexample :
    (downloadAndExtractBuild Platform.MacOSX64 Arch.X64 (bDesk commitAAA) false
        ⟨[], ⟨"https://host/x.zip", "1.80.0", "aa"⟩, "bb"⟩).1 =
      .error "expected SHA256 checksum does not match with download" ∧
    (downloadAndExtractBuild Platform.MacOSX64 Arch.X64 (bDesk commitAAA) false
        (downloadAndExtractBuild Platform.MacOSX64 Arch.X64 (bDesk commitAAA) false
          ⟨[], ⟨"https://host/x.zip", "1.80.0", "aa"⟩, "bb"⟩).2.1).1 =
      .ok (some (archivePath Platform.MacOSX64 Arch.X64 (bDesk commitAAA)
        ⟨"https://host/x.zip", "1.80.0", "aa"⟩)) :=
  ⟨rfl, rfl⟩

/-- Witness for `materialize_mismatch_leaves_cache` at the concrete mismatch
run of the counterexample world. -/
theorem materialize_mismatch_leaves_cache_witness :
    (downloadAndExtractBuild Platform.MacOSX64 Arch.X64 (bDesk commitAAA) false
        ⟨[], ⟨"https://host/x.zip", "1.80.0", "aa"⟩, "bb"⟩).1 =
      .error "expected SHA256 checksum does not match with download" ∧
    (downloadAndExtractBuild Platform.MacOSX64 Arch.X64 (bDesk commitAAA) false
        ⟨[], ⟨"https://host/x.zip", "1.80.0", "aa"⟩, "bb"⟩).2.1.files.contains
      (archivePath Platform.MacOSX64 Arch.X64 (bDesk commitAAA)
        ⟨"https://host/x.zip", "1.80.0", "aa"⟩) = true ∧
    (downloadAndExtractBuild Platform.MacOSX64 Arch.X64 (bDesk commitAAA) false
        (downloadAndExtractBuild Platform.MacOSX64 Arch.X64 (bDesk commitAAA) false
          ⟨[], ⟨"https://host/x.zip", "1.80.0", "aa"⟩, "bb"⟩).2.1).1 =
      .ok (some (archivePath Platform.MacOSX64 Arch.X64 (bDesk commitAAA)
        ⟨"https://host/x.zip", "1.80.0", "aa"⟩)) :=
  materialize_mismatch_leaves_cache Platform.MacOSX64 Arch.X64 (bDesk commitAAA)
    ⟨[], ⟨"https://host/x.zip", "1.80.0", "aa"⟩, "bb"⟩ rfl rfl (by decide)

/-- The extraction destination computed inside `downloadAndExtractBuild` for
archive flavors: on Windows desktop/web default builds the `.zip` suffix is
stripped (the zip has no single top-level folder), otherwise the containing
folder. -/
def materializeDest (platform : Platform) (b : IBuild) (path : String) : String :=
  if (b.runtime = Runtime.DesktopLocal ∨ b.runtime = Runtime.WebLocal) ∧
      b.flavor = Flavor.Default ∧
      (platform = Platform.WindowsX64 ∨ platform = Platform.WindowsArm) then
    path.dropRight 4
  else
    jsDirname path

theorem materialize_download_eq (platform : Platform) (arch : Arch) (b : IBuild) (w : DiskWorld)
    (hdock : isDockerCliFlavor b.flavor = false)
    (hnc : w.files.contains (archivePath platform arch b w.meta) = false)
    (hmatch : w.meta.sha256hash = w.downloadSha) :
    downloadAndExtractBuild platform arch b false w =
      (if b.flavor = Flavor.Default ∨ b.flavor = Flavor.Cli ∨ b.flavor = Flavor.DarwinUniversal then
        (.ok (some (materializeDest platform b (archivePath platform arch b w.meta))),
          ⟨materializeDest platform b (archivePath platform arch b w.meta) ::
            archivePath platform arch b w.meta :: w.files, w.meta, w.downloadSha⟩,
          (getBuildDownloadName platform arch b w.meta).2 ++
            [.meta b.commit, .download w.meta.url])
      else
        (.ok (some (archivePath platform arch b w.meta)),
          ⟨archivePath platform arch b w.meta :: w.files, w.meta, w.downloadSha⟩,
          (getBuildDownloadName platform arch b w.meta).2 ++
            [.meta b.commit, .download w.meta.url])) := by
  rw [archivePath] at hnc
  have hmem : ¬ (getBuildPath platform b.commit b.quality b.flavor ++ "/" ++
      (getBuildDownloadName platform arch b w.meta).1) ∈ w.files := by
    simpa using hnc
  by_cases hfl : b.flavor = Flavor.Default ∨ b.flavor = Flavor.Cli ∨
      b.flavor = Flavor.DarwinUniversal <;>
    · simp only [downloadAndExtractBuild]
      simp [hdock, hmem, hmatch, archivePath, materializeDest, hfl]

/-- C2 (amended): for a build whose artifact is not yet on disk, a successful
`downloadAndExtractBuild` performs exactly one artifact download; a second call
with `forceReDownload` unset performs no download (at most a metadata fetch for
platforms whose download filename derives from metadata), leaves the world
unchanged, and returns the cached archive-file path — which for extracted
flavors is not the extraction destination the first call returned. -/
theorem materialize_second_call_cached (platform : Platform) (arch : Arch) (b : IBuild)
    (w : DiskWorld) (hdock : isDockerCliFlavor b.flavor = false)
    (hnc : w.files.contains (archivePath platform arch b w.meta) = false)
    (hmatch : w.meta.sha256hash = w.downloadSha) :
    (downloadAndExtractBuild platform arch b false w).2.2.countP isDownloadOp = 1 ∧
    downloadAndExtractBuild platform arch b false
        (downloadAndExtractBuild platform arch b false w).2.1 =
      (.ok (some (archivePath platform arch b w.meta)),
        (downloadAndExtractBuild platform arch b false w).2.1,
        (getBuildDownloadName platform arch b w.meta).2) ∧
    (getBuildDownloadName platform arch b w.meta).2.countP isDownloadOp = 0 := by
  have hshape := materialize_download_eq platform arch b w hdock hnc hmatch
  have hnod := getBuildDownloadName_no_download platform arch b w.meta
  by_cases hfl : b.flavor = Flavor.Default ∨ b.flavor = Flavor.Cli ∨
      b.flavor = Flavor.DarwinUniversal
  · rw [if_pos hfl] at hshape
    have hmeta : (downloadAndExtractBuild platform arch b false w).2.1.meta = w.meta := by
      rw [hshape]
    have hcontains : (downloadAndExtractBuild platform arch b false w).2.1.files.contains
        (archivePath platform arch b w.meta) = true := by
      rw [hshape]
      simp [List.contains]
    refine ⟨by rw [hshape]; simp [List.countP_append, List.countP_cons, isDownloadOp, hnod], ?_, hnod⟩
    have hcached := materialize_cached_eq platform arch b
      (downloadAndExtractBuild platform arch b false w).2.1 hdock (by rw [hmeta]; exact hcontains)
    rw [hmeta] at hcached
    exact hcached
  · rw [if_neg hfl] at hshape
    have hmeta : (downloadAndExtractBuild platform arch b false w).2.1.meta = w.meta := by
      rw [hshape]
    have hcontains : (downloadAndExtractBuild platform arch b false w).2.1.files.contains
        (archivePath platform arch b w.meta) = true := by
      rw [hshape]
      simp [List.contains]
    refine ⟨by rw [hshape]; simp [List.countP_append, List.countP_cons, isDownloadOp, hnod], ?_, hnod⟩
    have hcached := materialize_cached_eq platform arch b
      (downloadAndExtractBuild platform arch b false w).2.1 hdock (by rw [hmeta]; exact hcontains)
    rw [hmeta] at hcached
    exact hcached

/-- Concrete world for the C2 scenario on Linux: empty cache, matching
checksums, a metadata-derived download filename. -/
def wLin : DiskWorld :=
  ⟨[], ⟨"https://host/insider/code-insider-x64-163.tar.gz", "1.80.0-insider", "aa"⟩, "aa"⟩

/-- C2 counterexample: on Linux (default flavor) the first `materialize` call
returns the extraction destination folder while the second call returns the
cached archive-file path — a different string — and the second call still
performs a metadata fetch (the download filename is derived from metadata), so
both the \"same path\" and the \"no network I/O at all\" parts of the claim are
false. -/
theorem materialize_second_call_counterexample :
    (downloadAndExtractBuild Platform.LinuxX64 Arch.X64 (bDesk commitAAA) false wLin).1 =
      .ok (some (getBuildPath Platform.LinuxX64 commitAAA Quality.Insider Flavor.Default)) ∧
    (downloadAndExtractBuild Platform.LinuxX64 Arch.X64 (bDesk commitAAA) false
        (downloadAndExtractBuild Platform.LinuxX64 Arch.X64 (bDesk commitAAA) false wLin).2.1).1 =
      .ok (some (archivePath Platform.LinuxX64 Arch.X64 (bDesk commitAAA) wLin.meta)) ∧
    getBuildPath Platform.LinuxX64 commitAAA Quality.Insider Flavor.Default ≠
      archivePath Platform.LinuxX64 Arch.X64 (bDesk commitAAA) wLin.meta ∧
    (downloadAndExtractBuild Platform.LinuxX64 Arch.X64 (bDesk commitAAA) false
        (downloadAndExtractBuild Platform.LinuxX64 Arch.X64 (bDesk commitAAA) false wLin).2.1).2.2 ≠
      ([] : List NetOp) :=
  ⟨rfl, rfl, by decide, by decide⟩

/-- Witness for `materialize_second_call_cached` at the concrete Linux world. -/
theorem materialize_second_call_cached_witness :
    (downloadAndExtractBuild Platform.LinuxX64 Arch.X64 (bDesk commitAAA) false
        wLin).2.2.countP isDownloadOp = 1 ∧
    downloadAndExtractBuild Platform.LinuxX64 Arch.X64 (bDesk commitAAA) false
        (downloadAndExtractBuild Platform.LinuxX64 Arch.X64 (bDesk commitAAA) false wLin).2.1 =
      (.ok (some (archivePath Platform.LinuxX64 Arch.X64 (bDesk commitAAA) wLin.meta)),
        (downloadAndExtractBuild Platform.LinuxX64 Arch.X64 (bDesk commitAAA) false wLin).2.1,
        (getBuildDownloadName Platform.LinuxX64 Arch.X64 (bDesk commitAAA) wLin.meta).2) ∧
    (getBuildDownloadName Platform.LinuxX64 Arch.X64 (bDesk commitAAA)
        wLin.meta).2.countP isDownloadOp = 0 :=
  materialize_second_call_cached Platform.LinuxX64 Arch.X64 (bDesk commitAAA) wLin rfl rfl rfl

end VSCodeBisect
